import Mathlib

/-!
Verification development for the pcb-maker repository.

Shallow embedding of the two specified cores:
  - the KiCad job descriptor parser (src/kicad_job.py), and
  - the pipeline configuration loader, stage registry and execution engine
    (src/pipeline/config.py, src/pipeline/execution.py,
     src/pipeline/stages/__init__.py).

Dynamic (JSON / YAML / Python runtime) values are modelled by the inductive
type Val.  Python dictionaries are modelled as association lists with unique
keys as produced by the json / yaml parsers; dictionary reads and writes are
modelled by alist_get / alist_set.  Machine floats are modelled by rationals
(no claim depends on rounding).  Fallible code returns Except RunErr, with
one error kind per Python exception class that the sources can raise:
PipelineError, KiCadJobError, AttributeError (attribute faults on non-dict
values) and TypeError (Path() applied to a non-string).  Error message texts
are not modelled.  Parsing of the raw JSON / YAML text itself is outside the
embedding: a loader receives the parse result as Option Val, where
Option.none stands for an unreadable file or a syntax error.
-/

namespace PcbMaker

/-- Error kinds raised by the embedded code paths. -/
inductive RunErr where
  | pipelineErr
  | kicadErr
  | attrErr
  | typeErr
deriving DecidableEq, Repr

/-- Dynamic values: JSON / YAML documents and the Python scalars the code
manipulates.  Mappings keep source key order. -/
inductive Val where
  | none
  | bool (b : Bool)
  | num (q : ℚ)
  | str (s : String)
  | list (xs : List Val)
  | dict (xs : List (String × Val))

/-- First-match association-list lookup, the model of reading a key of a
parsed mapping (keys are unique in parser output). -/
def alist_get {β : Type} : List (String × β) → String → Option β
  | [], _ => Option.none
  | (k1, v) :: rest, k => if k1 = k then some v else alist_get rest k

/-- Association-list update: replace the first binding of the key in place,
or append a new binding, mirroring Python dict assignment. -/
def alist_set {β : Type} : List (String × β) → String → β → List (String × β)
  | [], k, v => [(k, v)]
  | (k1, v1) :: rest, k, v =>
      if k1 = k then (k, v) :: rest else (k1, v1) :: alist_set rest k v

/-- Python dict.setdefault: insert the binding only when the key is absent. -/
def alist_setdefault {β : Type} (xs : List (String × β)) (k : String) (v : β) :
    List (String × β) :=
  if (alist_get xs k).isSome then xs else xs ++ [(k, v)]

/-- Python truthiness of a Val. -/
def truthy : Val → Bool
  | Val.none => false
  | Val.bool b => b
  | Val.num q => decide (q ≠ 0)
  | Val.str s => decide (s ≠ "")
  | Val.list xs => !xs.isEmpty
  | Val.dict xs => !xs.isEmpty

/-- Is the value a mapping. -/
def Val.isDict : Val → Bool
  | Val.dict _ => true
  | _ => false

/-- Is the value a string. -/
def Val.isStr : Val → Bool
  | Val.str _ => true
  | _ => false

/-! String manipulation is modelled at the character-list level with
structural recursion, so that closed statements evaluate inside the kernel.
A Lean String is definitionally its character list. -/

/-- str.split(sep) for a one-character separator: every occurrence splits,
adjacent separators give empty fields, the empty string gives one empty
field. -/
def py_split (sep : Char) : List Char → List (List Char)
  | [] => [[]]
  | c :: rest =>
      match py_split sep rest with
      | cur :: acc => if c = sep then [] :: cur :: acc else (c :: cur) :: acc
      | [] => [[]]

/-- str.strip(): remove leading and trailing whitespace. -/
def py_strip (cs : List Char) : List Char :=
  ((cs.dropWhile Char.isWhitespace).reverse.dropWhile Char.isWhitespace).reverse

/-- str.join for a one-character separator. -/
def py_join (sep : Char) : List (List Char) → List Char
  | [] => []
  | [x] => x
  | x :: rest => x ++ sep :: py_join sep rest

/-- str.lower(), on ASCII as the sources use it. -/
def lowerChars (cs : List Char) : List Char := cs.map Char.toLower

/-- str.upper(), on ASCII as the sources use it. -/
def upperChars (cs : List Char) : List Char := cs.map Char.toUpper

/-- Decimal digits to a natural number. -/
def digits_to_nat (cs : List Char) : Nat :=
  cs.foldl (fun a c => a * 10 + (c.toNat - 48)) 0

/-- Model of Python float() applied to a decimal string: optional sign,
integer digits, optional fractional digits.  Exponent and inf/nan forms of
the builtin are not modelled; no claim depends on them. -/
def str_to_rat (s : String) : Option ℚ :=
  let t0 := py_strip s.data
  let (sgn, t) :=
    if t0.head? = some '-' then ((-1 : ℚ), t0.drop 1)
    else if t0.head? = some '+' then ((1 : ℚ), t0.drop 1)
    else ((1 : ℚ), t0)
  match py_split '.' t with
  | [i] =>
      if i ≠ [] ∧ i.all Char.isDigit then
        some (sgn * (digits_to_nat i : ℚ))
      else Option.none
  | [i, f] =>
      if (i ++ f) ≠ [] ∧ i.all Char.isDigit ∧ f.all Char.isDigit then
        some (sgn * ((digits_to_nat i : ℚ) +
          (digits_to_nat f : ℚ) / (10 : ℚ) ^ f.length))
      else Option.none
  | _ => Option.none

/-- Model of Python float(x) on a dynamic value: numbers and booleans
convert, decimal strings parse, everything else (None, lists, mappings)
raises, modelled as Option.none. -/
def pyFloat : Val → Option ℚ
  | Val.num q => some q
  | Val.bool b => some (if b then 1 else 0)
  | Val.str s => str_to_rat s
  | _ => Option.none

/-- Model of Python str(x) as used in f-strings.  The repr of containers is
abstracted (no claim depends on that rendering). -/
def pyStr : Val → String
  | Val.str s => s
  | Val.none => "None"
  | Val.bool b => if b then "True" else "False"
  | Val.num q => toString q
  | Val.list _ => "<list>"
  | Val.dict _ => "<dict>"

/-! ## KiCad job descriptor parser (src/kicad_job.py) -/

/-- One entry of FilesAttributes after classification
(kicad_job.py, dataclass LayerFile).  The Python dataclass annotates path
as str and polarity as Optional[str], but the parser stores whatever value
the document carried, so both are modelled as Val. -/
structure LayerFile where
  path : Val
  functions : List String
  polarity : Val
  layer_index : Option Nat
  side : Option String
  is_copper : Bool
  is_profile : Bool

/-- The parsed job descriptor (kicad_job.py, dataclass KiCadJob).
board_thickness and layer_number hold the raw document values. -/
structure KiCadJob where
  source_path : String
  board_size_x : ℚ
  board_size_y : ℚ
  board_thickness : Val
  layer_number : Val
  design_rules : List (String × Val)
  layers : List LayerFile

/-- KiCadJob.copper_layers. -/
def KiCadJob.copper_layers (j : KiCadJob) : List LayerFile :=
  j.layers.filter (fun l => l.is_copper)

/-- KiCadJob.outline_layer: first layer flagged is_profile. -/
def KiCadJob.outline_layer (j : KiCadJob) : Option LayerFile :=
  j.layers.find? (fun l => l.is_profile)

/-- KiCadJob.layer_by_index. -/
def KiCadJob.layer_by_index (j : KiCadJob) (idx : Nat) : Option LayerFile :=
  j.layers.find? (fun l => l.layer_index == some idx)

/-- Result of parse_file_function: the info dict of kicad_job.py lines
98-115, with its optional keys made explicit. -/
structure FuncInfo where
  parts : List String
  type : Option String
  layer_index : Option Nat
  side : Option String

/-- A token of the form L<digits> (case-insensitive L, then a non-empty run
of decimal digits), as tested by
p.upper().startswith("L") and p[1:].isdigit(); yields int(p[1:]). -/
def parseLTok (p : List Char) : Option Nat :=
  if (upperChars p).head? = some 'L' ∧ p.drop 1 ≠ [] ∧ (p.drop 1).all Char.isDigit
  then some (digits_to_nat (p.drop 1))
  else Option.none

/-- Is the token exactly Top or Bot. -/
def side_tok (p : List Char) : Bool :=
  decide (p = "Top".data ∨ p = "Bot".data)

/-- The scan over the tokens after a leading copper token
(kicad_job.py lines 105-109): an L<digits> token overwrites layer_index,
otherwise an exact Top/Bot token overwrites side. -/
def scan_copper : List (List Char) → Option Nat × Option String →
    Option Nat × Option String
  | [], acc => acc
  | p :: rest, acc =>
      match parseLTok p with
      | some n => scan_copper rest (some n, acc.2)
      | Option.none =>
          if side_tok p then scan_copper rest (acc.1, some ⟨p⟩)
          else scan_copper rest acc

/-- The value left by a sequence of overwrites: the last element of the
list when it is non-empty, the initial value otherwise.  Used to state what
the scan loop leaves in an info field. -/
def last_wins {α : Type} : List α → Option α → Option α
  | [], d => d
  | x :: rest, _ => last_wins rest (some x)

/-- Token list of a function tag: split on commas, strip whitespace, drop
empty tokens (kicad_job.py line 99). -/
def function_tokens (func_str : String) : List (List Char) :=
  ((py_split ',' func_str.data).map py_strip).filter (fun p => p ≠ [])

/-- parse_file_function (kicad_job.py lines 98-115). -/
def parse_file_function (func_str : String) : FuncInfo :=
  let parts := function_tokens func_str
  let partsStr : List String := parts.map (fun t => ⟨t⟩)
  match parts with
  | [] => ⟨partsStr, Option.none, Option.none, Option.none⟩
  | p0 :: rest =>
      if lowerChars p0 = "copper".data then
        let sc := scan_copper rest (Option.none, Option.none)
        ⟨partsStr, some "copper", sc.1, sc.2⟩
      else if lowerChars p0 = "profile".data then
        ⟨partsStr, some "profile", Option.none, Option.none⟩
      else
        ⟨partsStr, some ⟨lowerChars p0⟩, Option.none, Option.none⟩

/-- The classification flag derived at LayerFile construction
(parsed.get("type") == "copper"). -/
def FuncInfo.is_copper (i : FuncInfo) : Bool := i.type == some "copper"

/-- The classification flag derived at LayerFile construction
(parsed.get("type") == "profile"). -/
def FuncInfo.is_profile (i : FuncInfo) : Bool := i.type == some "profile"

/-- The admission test and LayerFile construction for one FilesAttributes
entry (kicad_job.py lines 148-166), for entries that do not fault:
a non-mapping entry and an entry with a falsy Path or FileFunction are
dropped, an admitted entry is classified. -/
def admit_entry (e : Val) : Option LayerFile :=
  match e with
  | Val.dict es =>
      let fpath := (alist_get es "Path").getD Val.none
      let ffunc := (alist_get es "FileFunction").getD (Val.str "")
      let pol := (alist_get es "FilePolarity").getD Val.none
      if truthy fpath ∧ truthy ffunc then
        match ffunc with
        | Val.str fstr =>
            let parsed := parse_file_function fstr
            some ⟨fpath, parsed.parts, pol, parsed.layer_index, parsed.side,
                  parsed.is_copper, parsed.is_profile⟩
        | _ => Option.none
      else Option.none
  | _ => Option.none

/-- The FilesAttributes loop (kicad_job.py lines 148-166).  A truthy but
non-string FileFunction reaches func_str.split and faults with
AttributeError, uncaught by load_kicad_job. -/
def process_entries : List Val → Except RunErr (List LayerFile)
  | [] => Except.ok []
  | e :: rest =>
      match e with
      | Val.dict es =>
          let fpath := (alist_get es "Path").getD Val.none
          let ffunc := (alist_get es "FileFunction").getD (Val.str "")
          if truthy fpath ∧ truthy ffunc then
            match ffunc with
            | Val.str fstr =>
                let parsed := parse_file_function fstr
                match process_entries rest with
                | Except.ok layers =>
                    Except.ok (⟨fpath, parsed.parts,
                      (alist_get es "FilePolarity").getD Val.none,
                      parsed.layer_index, parsed.side,
                      parsed.is_copper, parsed.is_profile⟩ :: layers)
                | Except.error err => Except.error err
            | _ => Except.error RunErr.attrErr
          else process_entries rest
      | _ => process_entries rest

/-- The design-rule selection of load_kicad_job (kicad_job.py lines
136-142): the first entry of a non-empty DesignRules list when that entry
is a mapping, otherwise empty. -/
def design_rules_of (drl : Val) : List (String × Val) :=
  match drl with
  | Val.list (first :: _) =>
      (match first with
       | Val.dict ds => ds
       | _ => [])
  | _ => []

/-- The body of load_kicad_job on a document that parsed to a mapping
(kicad_job.py lines 126-176).  Attribute faults inside the GeneralSpecs
block (GeneralSpecs or Size not a mapping) and float() failures are caught
and re-raised as KiCadJobError; a non-list FilesAttributes raises
KiCadJobError. -/
def load_kicad_doc (xs : List (String × Val)) (path : String) : Except RunErr KiCadJob :=
  match (alist_get xs "GeneralSpecs").getD (Val.dict []) with
  | Val.dict g =>
      match (alist_get g "Size").getD (Val.dict []) with
      | Val.dict sz =>
          match pyFloat ((alist_get sz "X").getD (Val.num 0)),
                pyFloat ((alist_get sz "Y").getD (Val.num 0)) with
          | some sx, some sy =>
              match (alist_get xs "FilesAttributes").getD (Val.list []) with
              | Val.list entries =>
                  match process_entries entries with
                  | Except.ok layers =>
                      Except.ok ⟨path, sx, sy,
                        (alist_get g "BoardThickness").getD Val.none,
                        (alist_get g "LayerNumber").getD Val.none,
                        design_rules_of ((alist_get xs "DesignRules").getD (Val.list [])),
                        layers⟩
                  | Except.error err => Except.error err
              | _ => Except.error RunErr.kicadErr
          | _, _ => Except.error RunErr.kicadErr
      | _ => Except.error RunErr.kicadErr
  | _ => Except.error RunErr.kicadErr

/-- load_kicad_job (kicad_job.py lines 118-176), from the JSON parse result:
Option.none stands for an unreadable file or a JSON syntax error, both of
which the source converts to KiCadJobError; a document whose top-level
value is not a mapping faults at raw.get inside the caught block and is
re-raised as KiCadJobError. -/
def load_kicad_job (parsed : Option Val) (path : String) : Except RunErr KiCadJob :=
  match parsed with
  | Option.none => Except.error RunErr.kicadErr
  | some raw =>
      match raw with
      | Val.dict xs => load_kicad_doc xs path
      | _ => Except.error RunErr.kicadErr

/-! ## Pipeline configuration loader (src/pipeline/config.py) -/

/-- One declared pipeline step (config.py, dataclass Stage). -/
structure Stage where
  name : String
  uses : String
  raw : List (String × Val)
  with_args : List (String × Val)

/-- Stage.namespace (config.py lines 22-24): the token before the first dot
of uses, or all of uses when it has no dot.  Named name_space because
namespace is a Lean keyword. -/
def Stage.name_space (st : Stage) : String :=
  if st.uses.data.contains '.' then ⟨(py_split '.' st.uses.data).headD st.uses.data⟩
  else st.uses

/-- Stage.action (config.py lines 26-28): the remainder of uses after the
first dot (maxsplit one), or empty when uses has no dot. -/
def Stage.action (st : Stage) : String :=
  if st.uses.data.contains '.' then ⟨py_join '.' (py_split '.' st.uses.data).tail⟩
  else ""

/-- The loaded pipeline document (config.py, dataclass PipelineConfig).
The version field stores the raw document value: the dataclass annotates it
as str but the loader never converts it.  source_path is Option.none when
absent; loading from a string records the sentinel path. -/
structure PipelineConfig where
  version : Val
  stages : List Stage
  source_path : Option String

/-- The non-empty-string test applied to the name and uses fields of a stage
entry (not name or not isinstance(name, str)). -/
def nonempty_str : Val → Option String
  | Val.str s => if s = "" then Option.none else some s
  | _ => Option.none

/-- _coerce_stage (config.py lines 51-66). -/
def coerce_stage (v : Val) : Except RunErr Stage :=
  match v with
  | Val.dict xs =>
      match nonempty_str ((alist_get xs "name").getD Val.none) with
      | Option.none => Except.error RunErr.pipelineErr
      | some name =>
          match nonempty_str ((alist_get xs "uses").getD Val.none) with
          | Option.none => Except.error RunErr.pipelineErr
          | some uses =>
              match alist_get xs "with" with
              | Option.none => Except.ok ⟨name, uses, xs, []⟩
              | some Val.none => Except.ok ⟨name, uses, xs, []⟩
              | some (Val.dict ws) => Except.ok ⟨name, uses, xs, ws⟩
              | some _ => Except.error RunErr.pipelineErr
  | _ => Except.error RunErr.pipelineErr

/-- Sequential fallible map, the model of the stage coercion loop
(config.py lines 102-104): stops at the first failing entry. -/
def mapExcept {α β : Type} (f : α → Except RunErr β) : List α → Except RunErr (List β)
  | [] => Except.ok []
  | x :: rest =>
      match f x with
      | Except.error e => Except.error e
      | Except.ok y =>
          match mapExcept f rest with
          | Except.error e => Except.error e
          | Except.ok ys => Except.ok (y :: ys)

/-- _build_config (config.py lines 93-105), from the YAML parse result.
The YAML text parsing itself is outside the embedding; load_pipeline and
load_pipeline_from_string differ only in the source_path they pass. -/
def build_config (data : Val) (source_path : Option String) :
    Except RunErr PipelineConfig :=
  match data with
  | Val.dict xs =>
      let version := (alist_get xs "version").getD (Val.str "")
      if truthy version then
        match (alist_get xs "stages").getD Val.none with
        | Val.list (r :: rs) =>
            match mapExcept coerce_stage (r :: rs) with
            | Except.error e => Except.error e
            | Except.ok stages => Except.ok ⟨version, stages, source_path⟩
        | _ => Except.error RunErr.pipelineErr
      else Except.error RunErr.pipelineErr
  | _ => Except.error RunErr.pipelineErr

/-! ## Stage registry and implementations (src/pipeline/stages/__init__.py) -/

/-- The eight stage implementation classes. -/
inductive StageKind where
  | loaderKicad
  | laserIsolation
  | laserOutline
  | laserRaster
  | millingIsolation
  | millingBoardCutout
  | outputLaserGcode
  | outputCncGcode
deriving DecidableEq, Repr

/-- STAGE_CLASS_REGISTRY (stages/__init__.py lines 102-111). -/
def STAGE_CLASS_REGISTRY : List (String × StageKind) :=
  [("loader.kicad", StageKind.loaderKicad),
   ("laser.isolation", StageKind.laserIsolation),
   ("laser.outline", StageKind.laserOutline),
   ("laser.raster", StageKind.laserRaster),
   ("milling.isolation", StageKind.millingIsolation),
   ("milling.board_cutout", StageKind.millingBoardCutout),
   ("output.laser_gcode", StageKind.outputLaserGcode),
   ("output.cnc_gcode", StageKind.outputCncGcode)]

/-- The registered uses keys. -/
def registryKeys : List String := STAGE_CLASS_REGISTRY.map Prod.fst

/-- create_stage_impl (execution.py lines 15-19): exact dictionary lookup of
the uses string, PipelineError when absent. -/
def createStageImpl (st : Stage) : Except RunErr StageKind :=
  match alist_get STAGE_CLASS_REGISTRY st.uses with
  | some kind => Except.ok kind
  | Option.none => Except.error RunErr.pipelineErr

/-- A value held in the execution context or passed between stages: either a
dynamic value or a parsed KiCadJob object. -/
inductive CtxVal where
  | ofVal (v : Val)
  | ofJob (j : KiCadJob)

/-- Python truthiness of a context value: dataclass instances are truthy. -/
def ctxTruthy : CtxVal → Bool
  | CtxVal.ofVal v => truthy v
  | CtxVal.ofJob _ => true

/-- The shared execution context, a Python dict keyed by strings. -/
def Context : Type := List (String × CtxVal)

/-- The filesystem as seen by the loader stage: maps a path to the JSON
parse result of the file there, Option.none when the file is unreadable or
not valid JSON. -/
def Fs : Type := String → Option Val

/-- The merged parameter mapping of the loader stage,
params = \x7b**self.cfg.raw, **self.cfg.with_args\x7d (stages/__init__.py
line 31), read at one key: with_args entries shadow raw entries. -/
def loader_params_opt (st : Stage) (k : String) : Option Val :=
  match alist_get st.with_args k with
  | some v => some v
  | Option.none => alist_get st.raw k

/-- params.get("with", \x7b\x7d): the default applies only when the key is
absent from the merged mapping. -/
def loader_nested_with (st : Stage) : Val :=
  match loader_params_opt st "with" with
  | some v => v
  | Option.none => Val.dict []

/-- One layered lookup of the loader stage (stages/__init__.py lines 32-33):
params.get(k) or params.get("with", \x7b\x7d).get(k).  The nested read
faults with AttributeError when the merged with entry is a present
non-mapping value (for example None). -/
def loader_lookup (st : Stage) (k : String) : Except RunErr Val :=
  let direct := (loader_params_opt st k).getD Val.none
  if truthy direct then Except.ok direct
  else
    match loader_nested_with st with
    | Val.dict ws => Except.ok ((alist_get ws k).getD Val.none)
    | _ => Except.error RunErr.attrErr

/-- Path() of a dynamic value: only strings are accepted (os.PathLike is
not modelled); anything else raises TypeError. -/
def path_of_val : Val → Except RunErr String
  | Val.str s => Except.ok s
  | _ => Except.error RunErr.typeErr

/-- PurePosixPath.is_absolute. -/
def is_absolute (p : String) : Bool := p.data.head? == some '/'

/-- pathlib path joining a / b: an absolute right operand replaces the
left one. -/
def path_join (a b : String) : String :=
  if is_absolute b then b
  else if a.data.getLast? == some '/' then a ++ b
  else a ++ "/" ++ b

/-- The job path resolution of LoaderKiCadStage.run (stages/__init__.py
lines 31-38): folder and job are each resolved by loader_lookup, a falsy
job raises PipelineError, the path is Path(folder)/job when folder is
truthy, and a relative path is joined under a truthy __pipeline_dir__ raw
entry.  Path.resolve() normalisation is modelled as the identity. -/
def resolve_loader_job_path (st : Stage) : Except RunErr String :=
  match loader_lookup st "folder" with
  | Except.error e => Except.error e
  | Except.ok folder =>
      match loader_lookup st "job" with
      | Except.error e => Except.error e
      | Except.ok job =>
          if truthy job then
            match
              (if truthy folder then
                match path_of_val folder with
                | Except.error e => Except.error e
                | Except.ok fstr =>
                    match path_of_val job with
                    | Except.error e => Except.error e
                    | Except.ok jstr => Except.ok (path_join fstr jstr)
               else path_of_val job) with
            | Except.error e => Except.error e
            | Except.ok p0 =>
                let pd := (alist_get st.raw "__pipeline_dir__").getD Val.none
                if is_absolute p0 = false ∧ truthy pd then
                  match path_of_val pd with
                  | Except.error e => Except.error e
                  | Except.ok dstr => Except.ok (path_join dstr p0)
                else Except.ok p0
          else Except.error RunErr.pipelineErr

/-- Context read, context.get(k). -/
def ctxGet (ctx : Context) (k : String) : Option CtxVal := alist_get ctx k

/-- Context write, context[k] = v. -/
def ctxSet (ctx : Context) (k : String) (v : CtxVal) : Context := alist_set ctx k v

/-- The artifact key each stage implementation writes into the context. -/
def stageKey : StageKind → String
  | StageKind.loaderKicad => "job"
  | StageKind.laserIsolation => "laser_isolation"
  | StageKind.laserOutline => "laser_outline"
  | StageKind.laserRaster => "laser_raster"
  | StageKind.millingIsolation => "milling_isolation"
  | StageKind.millingBoardCutout => "milling_board_cutout"
  | StageKind.outputLaserGcode => "laser_gcode"
  | StageKind.outputCncGcode => "cnc_gcode"

/-- The placeholder artifact of LaserIsolationStage.run (stages/__init__.py
lines 46-51): source is "job" when the context holds a truthy job. -/
def laser_isolation_result (ctx : Context) : CtxVal :=
  let src : Val :=
    match ctxGet ctx "job" with
    | some v => if ctxTruthy v then Val.str "job" else Val.none
    | Option.none => Val.none
  CtxVal.ofVal (Val.dict
    [("type", Val.str "laser_isolation_paths"), ("source", src),
     ("paths", Val.list [])])

/-- The outline value of LaserOutlineStage.run (stages/__init__.py lines
54-62): the path of the profile layer of the job in the context, if any.
A context job entry that is not a KiCadJob fails the hasattr test. -/
def laser_outline_result (ctx : Context) : Val :=
  match ctxGet ctx "job" with
  | some (CtxVal.ofJob j) =>
      (match j.outline_layer with
       | some l => l.path
       | Option.none => Val.none)
  | _ => Val.none

/-- The G-code placeholder text of the two output stages (stages/__init__.py
lines 86-99), parameterised by the laser / cnc tag word. -/
def gcode_text (tag : String) (st : Stage) : String :=
  let outfile := (alist_get st.with_args "file").getD Val.none
  if truthy outfile then
    "; " ++ tag ++ " gcode placeholder for " ++ pyStr outfile
  else "; " ++ tag ++ " gcode placeholder"

/-- The run methods of the eight stage implementations (stages/__init__.py).
Each returns its output together with the updated context. -/
def runStage (kind : StageKind) (st : Stage) (prev : Option CtxVal)
    (ctx : Context) (fs : Fs) : Except RunErr (CtxVal × Context) :=
  match kind with
  | StageKind.loaderKicad =>
      match resolve_loader_job_path st with
      | Except.error e => Except.error e
      | Except.ok p =>
          match load_kicad_job (fs p) p with
          | Except.error e => Except.error e
          | Except.ok j =>
              let out := CtxVal.ofJob j
              Except.ok (out, ctxSet ctx "job" out)
  | StageKind.laserIsolation =>
      let r := laser_isolation_result ctx
      Except.ok (r, ctxSet ctx "laser_isolation" r)
  | StageKind.laserOutline =>
      let r := CtxVal.ofVal (laser_outline_result ctx)
      Except.ok (r, ctxSet ctx "laser_outline" r)
  | StageKind.laserRaster =>
      let r := CtxVal.ofVal (Val.dict
        [("type", Val.str "laser_raster"),
         ("enabled", (alist_get st.with_args "enabled").getD (Val.bool false))])
      Except.ok (r, ctxSet ctx "laser_raster" r)
  | StageKind.millingIsolation =>
      let r := CtxVal.ofVal (Val.dict
        [("type", Val.str "milling_isolation"),
         ("tool_diameter", (alist_get st.with_args "tool_diameter").getD Val.none)])
      Except.ok (r, ctxSet ctx "milling_isolation" r)
  | StageKind.millingBoardCutout =>
      let r := CtxVal.ofVal (Val.dict
        [("type", Val.str "milling_board_cutout"),
         ("tabs", (alist_get st.with_args "tabs").getD Val.none)])
      Except.ok (r, ctxSet ctx "milling_board_cutout" r)
  | StageKind.outputLaserGcode =>
      let r := CtxVal.ofVal (Val.str (gcode_text "laser" st))
      Except.ok (r, ctxSet ctx "laser_gcode" r)
  | StageKind.outputCncGcode =>
      let r := CtxVal.ofVal (Val.str (gcode_text "cnc" st))
      Except.ok (r, ctxSet ctx "cnc_gcode" r)

/-! ## Execution engine (src/pipeline/execution.py) -/

/-- The __pipeline_dir__ injection
st.raw.setdefault("__pipeline_dir__", pipeline_dir). -/
def stage_with_dir (st : Stage) (pd : Val) : Stage :=
  { st with raw := alist_setdefault st.raw "__pipeline_dir__" pd }

/-- The stage loop of execute_pipeline (execution.py lines 27-33).  The
result pairs the context with the first error, if any: on an error the
Python dict retains everything written so far and the loop stops.  Every
mutation a stage performs happens after its last possible raise point, so
returning the pre-stage context on error is faithful. -/
def goStages : List Stage → Option CtxVal → Context → Fs → Val →
    Context × Option RunErr
  | [], _, ctx, _, _ => (ctx, Option.none)
  | st :: rest, prev, ctx, fs, pd =>
      let st1 := stage_with_dir st pd
      match createStageImpl st1 with
      | Except.error e => (ctx, some e)
      | Except.ok kind =>
          match runStage kind st1 prev ctx fs with
          | Except.error e => (ctx, some e)
          | Except.ok (out, ctx1) =>
              goStages rest (some out) (ctxSet ctx1 "last" out) fs pd

/-- str(Path(p).parent): everything before the last path separator, with
the pathlib conventions for a bare name and for the root. -/
def parentDir (p : String) : String :=
  match (py_split '/' p.data).dropLast with
  | [] => "."
  | [[]] => "/"
  | parts => ⟨py_join '/' parts⟩

/-- pipeline_dir = str(cfg.source_path.parent) if cfg.source_path else None
(execution.py line 26). -/
def pipelineDirVal (cfg : PipelineConfig) : Val :=
  match cfg.source_path with
  | some p => Val.str (parentDir p)
  | Option.none => Val.none

/-- execute_pipeline (execution.py lines 22-34): the context starts with
pipeline_version, the first stage receives no previous output. -/
def executePipeline (cfg : PipelineConfig) (fs : Fs) : Context × Option RunErr :=
  goStages cfg.stages Option.none
    [("pipeline_version", CtxVal.ofVal cfg.version)] fs (pipelineDirVal cfg)

/-! ## Generic lemmas about the dictionary model -/

theorem alist_get_set_self {β : Type} (xs : List (String × β)) (k : String) (v : β) :
    alist_get (alist_set xs k v) k = some v := by
  induction xs with
  | nil => simp [alist_set, alist_get]
  | cons p rest ih =>
      obtain ⟨k1, v1⟩ := p
      by_cases h : k1 = k
      · simp [alist_set, h, alist_get]
      · simp [alist_set, h, alist_get, ih]

theorem alist_get_set_ne {β : Type} (xs : List (String × β)) (k k1 : String) (v : β)
    (h : k1 ≠ k) : alist_get (alist_set xs k v) k1 = alist_get xs k1 := by
  induction xs with
  | nil => simp [alist_set, alist_get, Ne.symm h]
  | cons p rest ih =>
      obtain ⟨k2, v2⟩ := p
      by_cases h2 : k2 = k
      · subst h2
        simp [alist_set, alist_get, Ne.symm h]
      · simp [alist_set, h2, alist_get, ih]

theorem alist_get_eq_none_iff {β : Type} (xs : List (String × β)) (k : String) :
    alist_get xs k = Option.none ↔ k ∉ xs.map Prod.fst := by
  induction xs with
  | nil => simp [alist_get]
  | cons p rest ih =>
      obtain ⟨k1, v1⟩ := p
      by_cases h : k1 = k
      · subst h
        simp [alist_get]
      · simp [alist_get, h, ih, Ne.symm h]

theorem truthy_str_iff (s : String) : truthy (Val.str s) = true ↔ s ≠ "" := by
  simp [truthy]

/-! ## Claim C3: classification of function tags -/

theorem side_tok_parseLTok_none {p : List Char} (h : side_tok p = true) :
    parseLTok p = Option.none := by
  rcases of_decide_eq_true h with h2 | h2 <;> subst h2 <;> rfl

theorem parseLTok_some_side_tok_false {p : List Char} {n : Nat}
    (h : parseLTok p = some n) : side_tok p = false := by
  cases hs : side_tok p
  · rfl
  · rw [side_tok_parseLTok_none hs] at h
    exact Option.noConfusion h

theorem scan_copper_eq (rest : List (List Char)) (acc : Option Nat × Option String) :
    scan_copper rest acc =
      (last_wins (rest.filterMap parseLTok) acc.1,
       last_wins ((rest.filter side_tok).map (fun t => (⟨t⟩ : String))) acc.2) := by
  induction rest generalizing acc with
  | nil => simp [scan_copper, last_wins]
  | cons p rest ih =>
      cases hp : parseLTok p with
      | some n =>
          have hs : side_tok p = false := parseLTok_some_side_tok_false hp
          simp [scan_copper, hp, hs, ih, last_wins]
      | none =>
          cases hs : side_tok p
          · simp [scan_copper, hp, hs, ih, last_wins]
          · simp [scan_copper, hp, hs, ih, last_wins]

/-- Claim C3: a function tag is split on commas with whitespace trimming and
empty tokens dropped; an empty token list leaves the entry unclassified; a
leading case-insensitive copper token sets is_copper with layer_index taken
from the last L-digits token and side from the last exact Top/Bot token
(absent when no such token occurs, so a single such token sets the field to
it, other tokens being ignored); a leading case-insensitive profile token
sets is_profile; any other leading token records its lowercase form as the
type with neither flag; the flags are never both set; the two concrete
examples of the specification hold. -/
theorem claim_c3_parse_file_function :
    (∀ s, function_tokens s = [] →
      (parse_file_function s).type = Option.none ∧
      (parse_file_function s).is_copper = false ∧
      (parse_file_function s).is_profile = false) ∧
    (∀ s p0 rest, function_tokens s = p0 :: rest →
      lowerChars p0 = "copper".data →
      (parse_file_function s).is_copper = true ∧
      (parse_file_function s).is_profile = false ∧
      (parse_file_function s).layer_index =
        last_wins (rest.filterMap parseLTok) Option.none ∧
      (parse_file_function s).side =
        last_wins ((rest.filter side_tok).map (fun t => (⟨t⟩ : String))) Option.none) ∧
    (∀ s p0 rest, function_tokens s = p0 :: rest →
      lowerChars p0 = "profile".data →
      (parse_file_function s).is_profile = true ∧
      (parse_file_function s).is_copper = false ∧
      (parse_file_function s).layer_index = Option.none) ∧
    (∀ s p0 rest, function_tokens s = p0 :: rest →
      lowerChars p0 ≠ "copper".data → lowerChars p0 ≠ "profile".data →
      (parse_file_function s).type = some ⟨lowerChars p0⟩ ∧
      (parse_file_function s).is_copper = false ∧
      (parse_file_function s).is_profile = false) ∧
    (∀ s, ¬((parse_file_function s).is_copper = true ∧
            (parse_file_function s).is_profile = true)) ∧
    ((parse_file_function "Copper,L1,Top").is_copper = true ∧
     (parse_file_function "Copper,L1,Top").layer_index = some 1 ∧
     (parse_file_function "Copper,L1,Top").side = some "Top" ∧
     (parse_file_function "Soldermask,Top").is_copper = false ∧
     (parse_file_function "Soldermask,Top").is_profile = false) := by
  refine ⟨?_, ?_, ?_, ?_, ?_, ?_⟩
  · intro s h
    simp [parse_file_function, h, FuncInfo.is_copper, FuncInfo.is_profile]
  · intro s p0 rest h hlow
    simp only [parse_file_function, h, hlow, scan_copper_eq]
    simp [FuncInfo.is_copper, FuncInfo.is_profile]
  · intro s p0 rest h hlow
    have hnc : lowerChars p0 ≠ "copper".data := by
      rw [hlow]; decide
    simp only [parse_file_function, h]
    simp [hnc, hlow, FuncInfo.is_copper, FuncInfo.is_profile]
  · intro s p0 rest h hnc hnp
    have hne : (⟨lowerChars p0⟩ : String) ≠ "copper" :=
      fun hh => hnc (congrArg String.data hh)
    have hne2 : (⟨lowerChars p0⟩ : String) ≠ "profile" :=
      fun hh => hnp (congrArg String.data hh)
    simp only [parse_file_function, h]
    simp [hnc, hnp, FuncInfo.is_copper, FuncInfo.is_profile, hne, hne2]
  · intro s hpair
    obtain ⟨h1, h2⟩ := hpair
    have e3 : (parse_file_function s).type = some "copper" := by
      unfold FuncInfo.is_copper at h1
      exact eq_of_beq h1
    have e2 : (parse_file_function s).type = some "profile" := by
      unfold FuncInfo.is_profile at h2
      exact eq_of_beq h2
    rw [e3] at e2
    exact absurd (Option.some.inj e2) (by decide)
  · refine ⟨by rfl, by rfl, by rfl, by rfl, by rfl⟩

/-- Witness for claim C3: the copper clause applied to the concrete tag
Copper,L1,Top, whose hypotheses hold by evaluation. -/
theorem claim_c3_witness :
    (parse_file_function "Copper,L1,Top").is_copper = true ∧
    (parse_file_function "Copper,L1,Top").layer_index =
      last_wins (["L1".data, "Top".data].filterMap parseLTok) Option.none := by
  have h := claim_c3_parse_file_function.2.1 "Copper,L1,Top"
    "Copper".data ["L1".data, "Top".data] (by rfl) (by rfl)
  exact ⟨h.1, h.2.2.1⟩

/-! ## Characterization of a successful descriptor load -/

theorem load_ok_char {xs : List (String × Val)} {p : String} {job : KiCadJob}
    (hok : load_kicad_doc xs p = Except.ok job) :
    ∃ g sz entries,
      (alist_get xs "GeneralSpecs").getD (Val.dict []) = Val.dict g ∧
      (alist_get g "Size").getD (Val.dict []) = Val.dict sz ∧
      pyFloat ((alist_get sz "X").getD (Val.num 0)) = some job.board_size_x ∧
      pyFloat ((alist_get sz "Y").getD (Val.num 0)) = some job.board_size_y ∧
      job.board_thickness = (alist_get g "BoardThickness").getD Val.none ∧
      job.layer_number = (alist_get g "LayerNumber").getD Val.none ∧
      job.design_rules = design_rules_of ((alist_get xs "DesignRules").getD (Val.list [])) ∧
      (alist_get xs "FilesAttributes").getD (Val.list []) = Val.list entries ∧
      process_entries entries = Except.ok job.layers ∧
      job.source_path = p := by
  unfold load_kicad_doc at hok
  split at hok
  case _ g heqg =>
    split at hok
    case _ sz heqsz =>
      split at hok
      case _ sx sy heqx heqy =>
        split at hok
        case _ entries heqe =>
          split at hok
          case _ layers heqp =>
            injection hok with he
            subst he
            exact ⟨g, sz, entries, heqg, heqsz, heqx, heqy, rfl, rfl, rfl, heqe, heqp, rfl⟩
          case _ => exact Except.noConfusion hok
        case _ => exact Except.noConfusion hok
      case _ => exact Except.noConfusion hok
    case _ => exact Except.noConfusion hok
  case _ => exact Except.noConfusion hok

theorem process_entries_char {l : List Val} {ls : List LayerFile}
    (h : process_entries l = Except.ok ls) :
    ls = l.filterMap admit_entry ∧
    ∀ e ∈ l,
      ((admit_entry e).isSome ↔ ∃ es, e = Val.dict es ∧
        truthy ((alist_get es "Path").getD Val.none) = true ∧
        truthy ((alist_get es "FileFunction").getD (Val.str "")) = true) ∧
      ((admit_entry e).isSome → ∃ es fstr, e = Val.dict es ∧
        (alist_get es "FileFunction").getD (Val.str "") = Val.str fstr ∧ fstr ≠ "") := by
  induction l generalizing ls with
  | nil =>
      unfold process_entries at h
      injection h with he
      subst he
      exact ⟨rfl, by simp⟩
  | cons e rest ih =>
      cases e with
      | dict es =>
          simp only [process_entries] at h
          split at h
          next hcond =>
            split at h
            case _ fstr heqf =>
              split at h
              case _ layers heqr =>
                obtain ⟨h1, h2⟩ := ih heqr
                injection h with he
                subst he
                have htf : truthy (Val.str fstr) = true := heqf ▸ hcond.2
                constructor
                · simp only [List.filterMap_cons]
                  simp [admit_entry, hcond.1, hcond.2, heqf, htf, h1]
                · intro x hx
                  rcases List.mem_cons.mp hx with hx | hx
                  · subst hx
                    constructor
                    · constructor
                      · intro _
                        exact ⟨es, rfl, hcond.1, hcond.2⟩
                      · intro _
                        simp [admit_entry, hcond.1, hcond.2, heqf, htf]
                    · intro _
                      refine ⟨es, fstr, rfl, heqf, ?_⟩
                      have ht := hcond.2
                      rw [heqf] at ht
                      exact (truthy_str_iff fstr).mp ht
                  · exact h2 x hx
              case _ => exact Except.noConfusion h
            case _ hnostr => exact Except.noConfusion h
          next hcond =>
            obtain ⟨h1, h2⟩ := ih h
            constructor
            · simp only [List.filterMap_cons]
              simp [admit_entry, hcond, h1]
            · intro x hx
              rcases List.mem_cons.mp hx with hx | hx
              · subst hx
                constructor
                · simp [admit_entry, hcond]
                · simp [admit_entry, hcond]
              · exact h2 x hx
      | none =>
          simp only [process_entries] at h
          obtain ⟨h1, h2⟩ := ih h
          refine ⟨by simp [List.filterMap_cons, admit_entry, h1], ?_⟩
          intro x hx
          rcases List.mem_cons.mp hx with hx | hx
          · subst hx
            exact ⟨by simp [admit_entry], by simp [admit_entry]⟩
          · exact h2 x hx
      | bool b =>
          simp only [process_entries] at h
          obtain ⟨h1, h2⟩ := ih h
          refine ⟨by simp [List.filterMap_cons, admit_entry, h1], ?_⟩
          intro x hx
          rcases List.mem_cons.mp hx with hx | hx
          · subst hx
            exact ⟨by simp [admit_entry], by simp [admit_entry]⟩
          · exact h2 x hx
      | num q =>
          simp only [process_entries] at h
          obtain ⟨h1, h2⟩ := ih h
          refine ⟨by simp [List.filterMap_cons, admit_entry, h1], ?_⟩
          intro x hx
          rcases List.mem_cons.mp hx with hx | hx
          · subst hx
            exact ⟨by simp [admit_entry], by simp [admit_entry]⟩
          · exact h2 x hx
      | str s =>
          simp only [process_entries] at h
          obtain ⟨h1, h2⟩ := ih h
          refine ⟨by simp [List.filterMap_cons, admit_entry, h1], ?_⟩
          intro x hx
          rcases List.mem_cons.mp hx with hx | hx
          · subst hx
            exact ⟨by simp [admit_entry], by simp [admit_entry]⟩
          · exact h2 x hx
      | list l2 =>
          simp only [process_entries] at h
          obtain ⟨h1, h2⟩ := ih h
          refine ⟨by simp [List.filterMap_cons, admit_entry, h1], ?_⟩
          intro x hx
          rcases List.mem_cons.mp hx with hx | hx
          · subst hx
            exact ⟨by simp [admit_entry], by simp [admit_entry]⟩
          · exact h2 x hx

/-! ## Claim C1: descriptor-level failure and default behaviour -/

/-- Counterexample to claim C1 as stated: the claim asserts that the parser
fails when GeneralSpecs is missing, but the empty document, which has no
GeneralSpecs at all, loads successfully with both board sizes zero
(kicad_job.py line 127 defaults a missing GeneralSpecs to an empty
mapping). -/
theorem claim_c1_counterexample :
    load_kicad_job (some (Val.dict [])) "job.gbrjob" =
      Except.ok ⟨"job.gbrjob", 0, 0, Val.none, Val.none, [], []⟩ := by
  rfl

/-- Claim C1 (amended): load_kicad_job raises KiCadJobError when the source
is not valid JSON, and when GeneralSpecs is present but malformed: a
non-mapping GeneralSpecs, a non-mapping Size, or a Size.X (or Size.Y) value
that float() cannot convert.  A missing GeneralSpecs does not fail; on
every successful load a document lacking Size values, at whichever level,
yields board sizes 0.0, and missing keys elsewhere never fail. -/
theorem claim_c1_amended :
    (∀ p, load_kicad_job Option.none p = Except.error RunErr.kicadErr) ∧
    (∀ xs v p, alist_get xs "GeneralSpecs" = some v → v.isDict = false →
      load_kicad_job (some (Val.dict xs)) p = Except.error RunErr.kicadErr) ∧
    (∀ xs g v p, alist_get xs "GeneralSpecs" = some (Val.dict g) →
      alist_get g "Size" = some v → v.isDict = false →
      load_kicad_job (some (Val.dict xs)) p = Except.error RunErr.kicadErr) ∧
    (∀ xs g sz xv p, alist_get xs "GeneralSpecs" = some (Val.dict g) →
      alist_get g "Size" = some (Val.dict sz) →
      alist_get sz "X" = some xv → pyFloat xv = Option.none →
      load_kicad_job (some (Val.dict xs)) p = Except.error RunErr.kicadErr) ∧
    (∀ xs p job, load_kicad_job (some (Val.dict xs)) p = Except.ok job →
      alist_get xs "GeneralSpecs" = Option.none →
      job.board_size_x = 0 ∧ job.board_size_y = 0) ∧
    (∀ xs g p job, load_kicad_job (some (Val.dict xs)) p = Except.ok job →
      alist_get xs "GeneralSpecs" = some (Val.dict g) →
      alist_get g "Size" = Option.none →
      job.board_size_x = 0 ∧ job.board_size_y = 0) ∧
    (∀ xs g sz p job, load_kicad_job (some (Val.dict xs)) p = Except.ok job →
      alist_get xs "GeneralSpecs" = some (Val.dict g) →
      alist_get g "Size" = some (Val.dict sz) →
      alist_get sz "X" = Option.none → job.board_size_x = 0) ∧
    (∀ xs p, alist_get xs "GeneralSpecs" = Option.none →
      alist_get xs "DesignRules" = Option.none →
      alist_get xs "FilesAttributes" = Option.none →
      load_kicad_job (some (Val.dict xs)) p =
        Except.ok ⟨p, 0, 0, Val.none, Val.none, [], []⟩) := by
  refine ⟨fun p => rfl, ?_, ?_, ?_, ?_, ?_, ?_, ?_⟩
  · intro xs v p h1 h2
    show load_kicad_doc xs p = _
    unfold load_kicad_doc
    rw [h1]
    cases v <;> simp_all [Val.isDict, Option.getD]
  · intro xs g v p h1 h2 h3
    show load_kicad_doc xs p = _
    unfold load_kicad_doc
    rw [h1]
    simp only [Option.getD]
    rw [h2]
    cases v <;> simp_all [Val.isDict, Option.getD]
  · intro xs g sz xv p h1 h2 h3 h4
    show load_kicad_doc xs p = _
    unfold load_kicad_doc
    rw [h1]
    simp only [Option.getD]
    rw [h2]
    simp only [Option.getD]
    rw [h3]
    simp [Option.getD, h4]
  · intro xs p job hok h1
    obtain ⟨g, sz, entries, hg, hsz, hx, hy, _⟩ := load_ok_char (hok : load_kicad_doc xs p = _)
    rw [h1] at hg
    simp only [Option.getD] at hg
    injection hg with hg2
    subst hg2
    simp only [alist_get, Option.getD] at hsz
    injection hsz with hsz2
    subst hsz2
    simp only [alist_get, Option.getD, pyFloat] at hx hy
    exact ⟨(Option.some.inj hx).symm, (Option.some.inj hy).symm⟩
  · intro xs g p job hok h1 h2
    obtain ⟨g2, sz, entries, hg, hsz, hx, hy, _⟩ := load_ok_char (hok : load_kicad_doc xs p = _)
    rw [h1] at hg
    simp only [Option.getD] at hg
    injection hg with hg2
    subst hg2
    rw [h2] at hsz
    simp only [Option.getD] at hsz
    injection hsz with hsz2
    subst hsz2
    simp only [alist_get, Option.getD, pyFloat] at hx hy
    exact ⟨(Option.some.inj hx).symm, (Option.some.inj hy).symm⟩
  · intro xs g sz p job hok h1 h2 h3
    obtain ⟨g2, sz2, entries, hg, hsz, hx, hy, _⟩ := load_ok_char (hok : load_kicad_doc xs p = _)
    rw [h1] at hg
    simp only [Option.getD] at hg
    injection hg with hg2
    subst hg2
    rw [h2] at hsz
    simp only [Option.getD] at hsz
    injection hsz with hsz2
    subst hsz2
    rw [h3] at hx
    simp only [Option.getD, pyFloat] at hx
    exact (Option.some.inj hx).symm
  · intro xs p h1 h2 h3
    show load_kicad_doc xs p = _
    unfold load_kicad_doc
    rw [h1, h2, h3]
    simp [Option.getD, design_rules_of, process_entries, pyFloat, alist_get]

/-- Witness for claim C1: the malformed-GeneralSpecs clause applied to a
document whose GeneralSpecs is the number 3. -/
theorem claim_c1_witness :
    load_kicad_job (some (Val.dict [("GeneralSpecs", Val.num 3)])) "p" =
      Except.error RunErr.kicadErr :=
  claim_c1_amended.2.1 [("GeneralSpecs", Val.num 3)] (Val.num 3) "p" rfl rfl

/-! ## Claim C8: design-rule selection -/

/-- Counterexample to claim C8 as stated.  First conjunct: a DesignRules
sequence containing a non-mapping entry (the number 5) yields a non-empty
designRules, contradicting the clause that such sequences yield an empty
designRules.  Second conjunct: a sequence whose first mapping-typed entry
is its second element yields an empty designRules, contradicting the clause
that designRules is the first mapping-typed entry; the code only ever
inspects the head of the sequence (kicad_job.py lines 138-142). -/
theorem claim_c8_counterexample :
    load_kicad_job (some (Val.dict
      [("DesignRules", Val.list [Val.dict [("a", Val.num 1)], Val.num 5])])) "p" =
      Except.ok ⟨"p", 0, 0, Val.none, Val.none, [("a", Val.num 1)], []⟩ ∧
    load_kicad_job (some (Val.dict
      [("DesignRules", Val.list [Val.num 5, Val.dict [("a", Val.num 1)]])])) "p" =
      Except.ok ⟨"p", 0, 0, Val.none, Val.none, [], []⟩ :=
  ⟨rfl, rfl⟩

/-- Claim C8 (amended): on every successful load, designRules is the first
entry of the DesignRules sequence when that entry is a mapping, taken
verbatim; otherwise (an empty or absent or non-sequence DesignRules, or a
non-mapping first entry) it is empty; entries after the first are never
consulted. -/
theorem claim_c8_amended :
    (∀ xs p job, load_kicad_job (some (Val.dict xs)) p = Except.ok job →
      job.design_rules =
        design_rules_of ((alist_get xs "DesignRules").getD (Val.list []))) ∧
    (∀ ds rest, design_rules_of (Val.list (Val.dict ds :: rest)) = ds) ∧
    (design_rules_of (Val.list []) = []) ∧
    (∀ first rest, first.isDict = false →
      design_rules_of (Val.list (first :: rest)) = []) ∧
    (∀ first r1 r2, design_rules_of (Val.list (first :: r1)) =
      design_rules_of (Val.list (first :: r2))) := by
  refine ⟨?_, fun ds rest => rfl, rfl, ?_, ?_⟩
  · intro xs p job hok
    obtain ⟨g, sz, entries, _, _, _, _, _, _, hdr, _, _, _⟩ :=
      load_ok_char (hok : load_kicad_doc xs p = _)
    exact hdr
  · intro first rest h
    cases first <;> simp_all [design_rules_of, Val.isDict]
  · intro first r1 r2
    cases first <;> rfl

/-- Witness for claim C8: the master clause applied to a concrete document
with one mapping-typed rule set. -/
theorem claim_c8_witness :
    (⟨"p", 0, 0, Val.none, Val.none, [("b", Val.num 2)], []⟩ : KiCadJob).design_rules =
      design_rules_of ((alist_get
        [("DesignRules", Val.list [Val.dict [("b", Val.num 2)]])] "DesignRules").getD
        (Val.list [])) :=
  claim_c8_amended.1 [("DesignRules", Val.list [Val.dict [("b", Val.num 2)]])] "p"
    ⟨"p", 0, 0, Val.none, Val.none, [("b", Val.num 2)], []⟩ rfl

/-! ## Claim C9: file-entry admission -/

/-- Claim C9: on every successfully parsed job descriptor, a FilesAttributes
entry appears in layers exactly when it is a mapping with a truthy Path and
a truthy FileFunction; in a successful parse every admitted entry has a
non-empty FileFunction string; rejected entries are dropped without error
and the admitted entries keep source order (layers is the order-preserving
filterMap of the entry list). -/
theorem claim_c9_admission :
    ∀ xs p entries job,
      load_kicad_job (some (Val.dict xs)) p = Except.ok job →
      (alist_get xs "FilesAttributes").getD (Val.list []) = Val.list entries →
      job.layers = entries.filterMap admit_entry ∧
      (∀ e ∈ entries,
        ((admit_entry e).isSome ↔ ∃ es, e = Val.dict es ∧
          truthy ((alist_get es "Path").getD Val.none) = true ∧
          truthy ((alist_get es "FileFunction").getD (Val.str "")) = true) ∧
        ((admit_entry e).isSome → ∃ es fstr, e = Val.dict es ∧
          (alist_get es "FileFunction").getD (Val.str "") = Val.str fstr ∧ fstr ≠ "")) := by
  intro xs p entries job hok hfa
  obtain ⟨g, sz, entries2, _, _, _, _, _, _, _, hfa2, hpe, _⟩ :=
    load_ok_char (hok : load_kicad_doc xs p = _)
  rw [hfa] at hfa2
  injection hfa2 with he
  subst he
  obtain ⟨h1, h2⟩ := process_entries_char hpe
  exact ⟨h1, h2⟩

/-- Witness for claim C9: a concrete document with one admissible entry and
one entry lacking a Path, which is dropped. -/
theorem claim_c9_witness :
    (⟨"p", 0, 0, Val.none, Val.none, [],
      [⟨Val.str "a.gbr", ["Copper", "L1", "Top"], Val.none, some 1, some "Top",
        true, false⟩]⟩ : KiCadJob).layers =
      [Val.dict [("Path", Val.str "a.gbr"), ("FileFunction", Val.str "Copper,L1,Top")],
       Val.dict [("FileFunction", Val.str "Profile")]].filterMap admit_entry :=
  (claim_c9_admission
    [("FilesAttributes", Val.list
      [Val.dict [("Path", Val.str "a.gbr"), ("FileFunction", Val.str "Copper,L1,Top")],
       Val.dict [("FileFunction", Val.str "Profile")]])]
    "p"
    [Val.dict [("Path", Val.str "a.gbr"), ("FileFunction", Val.str "Copper,L1,Top")],
     Val.dict [("FileFunction", Val.str "Profile")]]
    ⟨"p", 0, 0, Val.none, Val.none, [],
      [⟨Val.str "a.gbr", ["Copper", "L1", "Top"], Val.none, some 1, some "Top",
        true, false⟩]⟩ rfl rfl).1

/-! ## Lemmas about the stage coercion loop -/

theorem mapExcept_not_ok_of_mem {α β : Type} {f : α → Except RunErr β} {l : List α}
    {x : α} {e : RunErr} (hx : x ∈ l) (hf : f x = Except.error e) :
    ∀ ys, mapExcept f l ≠ Except.ok ys := by
  induction l with
  | nil => cases hx
  | cons a rest ih =>
      intro ys h
      unfold mapExcept at h
      rcases List.mem_cons.mp hx with hx1 | hx1
      · subst hx1
        rw [hf] at h
        exact Except.noConfusion h
      · rcases ha : f a with e2 | y
        · rw [ha] at h
          exact Except.noConfusion h
        · rw [ha] at h
          rcases hm : mapExcept f rest with e2 | ys2
          · rw [hm] at h
            exact Except.noConfusion h
          · exact ih hx1 ys2 hm

theorem mapExcept_error_source {α β : Type} {f : α → Except RunErr β} {l : List α}
    {e : RunErr} (h : mapExcept f l = Except.error e) :
    ∃ x ∈ l, f x = Except.error e := by
  induction l with
  | nil =>
      unfold mapExcept at h
      exact Except.noConfusion h
  | cons a rest ih =>
      unfold mapExcept at h
      rcases ha : f a with e2 | y
      · rw [ha] at h
        injection h with he
        subst he
        exact ⟨a, List.mem_cons_self a rest, ha⟩
      · rw [ha] at h
        rcases hm : mapExcept f rest with e2 | ys
        · rw [hm] at h
          injection h with he
          subst he
          obtain ⟨x, hx, hfx⟩ := ih hm
          exact ⟨x, List.mem_cons_of_mem a hx, hfx⟩
        · rw [hm] at h
          exact Except.noConfusion h

theorem mapExcept_ok_of_all {α β : Type} {f : α → Except RunErr β} {l : List α}
    (h : ∀ x ∈ l, ∃ y, f x = Except.ok y) :
    ∃ ys, mapExcept f l = Except.ok ys := by
  induction l with
  | nil => exact ⟨[], rfl⟩
  | cons a rest ih =>
      obtain ⟨y, hy⟩ := h a (List.mem_cons_self a rest)
      obtain ⟨ys, hys⟩ := ih (fun x hx => h x (List.mem_cons_of_mem a hx))
      exact ⟨y :: ys, by unfold mapExcept; rw [hy, hys]⟩

theorem mapExcept_ok_length {α β : Type} {f : α → Except RunErr β} {l : List α}
    {ys : List β} (h : mapExcept f l = Except.ok ys) : ys.length = l.length := by
  induction l generalizing ys with
  | nil =>
      unfold mapExcept at h
      injection h with he
      subst he
      rfl
  | cons a rest ih =>
      unfold mapExcept at h
      rcases ha : f a with e | y
      · rw [ha] at h
        exact Except.noConfusion h
      · rw [ha] at h
        rcases hm : mapExcept f rest with e | ys2
        · rw [hm] at h
          exact Except.noConfusion h
        · rw [hm] at h
          injection h with he
          subst he
          simp [ih hm]

theorem coerce_stage_error_kind {v : Val} {e : RunErr}
    (h : coerce_stage v = Except.error e) : e = RunErr.pipelineErr := by
  cases v <;> simp only [coerce_stage] at h <;>
    try (injection h with he; exact he.symm)
  case dict es =>
    split at h
    next => injection h with he; exact he.symm
    next name hn =>
      split at h
      next => injection h with he; exact he.symm
      next uses hu =>
        split at h
        next => exact Except.noConfusion h
        next => exact Except.noConfusion h
        next => exact Except.noConfusion h
        next => injection h with he; exact he.symm

/-! ## Claim C2: pipeline loader failure conditions -/

/-- Counterexample to claim C2 as stated: a stage whose with field is
present with the null value, which is not a mapping, loads successfully —
the loader treats a null with like an absent one (config.py lines 61-62) —
while the claim predicts a PipelineError for every stage whose with field
is present but not a mapping. -/
theorem claim_c2_counterexample :
    build_config (Val.dict [("version", Val.str "1"),
      ("stages", Val.list [Val.dict [("name", Val.str "a"), ("uses", Val.str "b"),
        ("with", Val.none)]])]) Option.none =
      Except.ok ⟨Val.str "1", [⟨"a", "b",
        [("name", Val.str "a"), ("uses", Val.str "b"), ("with", Val.none)], []⟩],
        Option.none⟩ :=
  rfl

/-- Claim C2 (amended): the loader raises PipelineError for every document
whose root is not a mapping; whose version is absent or falsy; whose stages
entry is absent, not a sequence, or empty; or that contains a stage entry
that is not a mapping, lacks a non-empty string name, lacks a non-empty
string uses, or whose with field is present with a non-null value that is
not a mapping (a null with is treated like an absent one).  All other stage
keys are retained verbatim in raw and never cause failure. -/
theorem claim_c2_amended :
    (∀ v sp, v.isDict = false → build_config v sp = Except.error RunErr.pipelineErr) ∧
    (∀ xs sp, truthy ((alist_get xs "version").getD (Val.str "")) = false →
      build_config (Val.dict xs) sp = Except.error RunErr.pipelineErr) ∧
    (∀ xs sp, (∀ l, (alist_get xs "stages").getD Val.none = Val.list l → l = []) →
      build_config (Val.dict xs) sp = Except.error RunErr.pipelineErr) ∧
    (∀ xs sp l e, (alist_get xs "stages").getD Val.none = Val.list l → e ∈ l →
      (∃ err, coerce_stage e = Except.error err) →
      build_config (Val.dict xs) sp = Except.error RunErr.pipelineErr) ∧
    (∀ v, v.isDict = false → coerce_stage v = Except.error RunErr.pipelineErr) ∧
    (∀ es, nonempty_str ((alist_get es "name").getD Val.none) = Option.none →
      coerce_stage (Val.dict es) = Except.error RunErr.pipelineErr) ∧
    (∀ es, nonempty_str ((alist_get es "uses").getD Val.none) = Option.none →
      coerce_stage (Val.dict es) = Except.error RunErr.pipelineErr) ∧
    (∀ es w, alist_get es "with" = some w → w ≠ Val.none → w.isDict = false →
      coerce_stage (Val.dict es) = Except.error RunErr.pipelineErr) ∧
    (∀ es n u, nonempty_str ((alist_get es "name").getD Val.none) = some n →
      nonempty_str ((alist_get es "uses").getD Val.none) = some u →
      (alist_get es "with" = Option.none →
        coerce_stage (Val.dict es) = Except.ok ⟨n, u, es, []⟩) ∧
      (alist_get es "with" = some Val.none →
        coerce_stage (Val.dict es) = Except.ok ⟨n, u, es, []⟩) ∧
      (∀ ws, alist_get es "with" = some (Val.dict ws) →
        coerce_stage (Val.dict es) = Except.ok ⟨n, u, es, ws⟩)) := by
  refine ⟨?_, ?_, ?_, ?_, ?_, ?_, ?_, ?_, ?_⟩
  · intro v sp h
    cases v <;> simp_all [build_config, Val.isDict]
  · intro xs sp h
    simp [build_config, h]
  · intro xs sp h
    simp only [build_config]
    by_cases hv : truthy ((alist_get xs "version").getD (Val.str "")) = true
    · rw [if_pos hv]
      rcases hs : (alist_get xs "stages").getD Val.none with _ | b | q | s | l | d
      · rfl
      · rfl
      · rfl
      · rfl
      · have := h l hs
        subst this
        rfl
      · rfl
    · rw [if_neg hv]
  · intro xs sp l e hs he herr
    obtain ⟨err, herr⟩ := herr
    simp only [build_config]
    by_cases hv : truthy ((alist_get xs "version").getD (Val.str "")) = true
    · rw [if_pos hv, hs]
      cases l with
      | nil => cases he
      | cons r rs =>
          rcases hm : mapExcept coerce_stage (r :: rs) with e2 | ys
          · obtain ⟨x, hx, hfx⟩ := mapExcept_error_source hm
            have := coerce_stage_error_kind hfx
            subst this
            simp only [hm]
          · exact absurd hm (mapExcept_not_ok_of_mem he herr ys)
    · rw [if_neg hv]
  · intro v h
    cases v <;> simp_all [coerce_stage, Val.isDict]
  · intro es h
    simp [coerce_stage, h]
  · intro es h
    simp only [coerce_stage]
    rcases hn : nonempty_str ((alist_get es "name").getD Val.none) with _ | n
    · rfl
    · simp only [h]
  · intro es w hw hnn hnd
    simp only [coerce_stage]
    rcases hn : nonempty_str ((alist_get es "name").getD Val.none) with _ | n
    · rfl
    · rcases hu : nonempty_str ((alist_get es "uses").getD Val.none) with _ | u
      · simp only [hu]
      · simp only [hu, hw]
        cases w with
        | none => exact absurd rfl hnn
        | dict ws => simp [Val.isDict] at hnd
        | bool b => rfl
        | num q => rfl
        | str s => rfl
        | list l => rfl
  · intro es n u hn hu
    refine ⟨?_, ?_, ?_⟩
    · intro hw
      simp [coerce_stage, hn, hu, hw]
    · intro hw
      simp [coerce_stage, hn, hu, hw]
    · intro ws hw
      simp [coerce_stage, hn, hu, hw]

/-- Witness for claim C2: the missing-version clause applied to the empty
document. -/
theorem claim_c2_witness :
    build_config (Val.dict []) Option.none = Except.error RunErr.pipelineErr :=
  claim_c2_amended.2.1 [] Option.none rfl

/-! ## Claim C6: invariants of a successful pipeline load -/

/-- Counterexample to claim C6 as stated: a document whose version is the
number 1 loads successfully, so the version of a successfully loaded
configuration need not be a string (the loader only checks truthiness,
config.py lines 96-98). -/
theorem claim_c6_counterexample :
    build_config (Val.dict [("version", Val.num 1),
      ("stages", Val.list [Val.dict [("name", Val.str "a"), ("uses", Val.str "b")]])])
      Option.none =
      Except.ok ⟨Val.num 1,
        [⟨"a", "b", [("name", Val.str "a"), ("uses", Val.str "b")], []⟩],
        Option.none⟩ ∧
    Val.isStr (Val.num 1) = false :=
  ⟨rfl, rfl⟩

/-- Claim C6 (amended): every successfully loaded configuration has a
truthy (though not necessarily string) version and a non-empty stage list
obtained by coercing the source stage entries one-to-one in declaration
order; the namespace and action derivations on the two specified examples
hold. -/
theorem claim_c6_amended :
    (∀ data sp cfg, build_config data sp = Except.ok cfg →
      truthy cfg.version = true ∧ cfg.stages ≠ [] ∧
      ∃ xs l, data = Val.dict xs ∧
        (alist_get xs "stages").getD Val.none = Val.list l ∧
        mapExcept coerce_stage l = Except.ok cfg.stages ∧
        cfg.stages.length = l.length) ∧
    (Stage.name_space ⟨"s", "laser.isolation", [], []⟩ = "laser" ∧
     Stage.action ⟨"s", "laser.isolation", [], []⟩ = "isolation" ∧
     Stage.name_space ⟨"s", "loader", [], []⟩ = "loader" ∧
     Stage.action ⟨"s", "loader", [], []⟩ = "") := by
  constructor
  · intro data sp cfg hok
    cases data <;> try exact Except.noConfusion hok
    case dict xs =>
      simp only [build_config] at hok
      split at hok
      case isTrue hv =>
        split at hok
        case _ r rs heqs =>
          rcases hm : mapExcept coerce_stage (r :: rs) with e | ys
          · rw [hm] at hok
            exact Except.noConfusion hok
          · rw [hm] at hok
            injection hok with he
            subst he
            refine ⟨hv, ?_, xs, r :: rs, rfl, heqs, hm, mapExcept_ok_length hm⟩
            have hlen := mapExcept_ok_length hm
            intro hnil
            have hnil2 : ys = [] := hnil
            rw [hnil2] at hlen
            exact Nat.noConfusion hlen
        case _ => exact Except.noConfusion hok
      case isFalse hv => exact Except.noConfusion hok
  · exact ⟨rfl, rfl, rfl, rfl⟩

/-- Witness for claim C6: the load-invariant clause applied to a concrete
two-stage document. -/
theorem claim_c6_witness :
    truthy (⟨Val.str "2",
      [⟨"a", "laser.isolation", [("name", Val.str "a"), ("uses", Val.str "laser.isolation")], []⟩,
       ⟨"b", "loader", [("name", Val.str "b"), ("uses", Val.str "loader")], []⟩],
      Option.none⟩ : PipelineConfig).version = true :=
  (claim_c6_amended.1
    (Val.dict [("version", Val.str "2"),
      ("stages", Val.list
        [Val.dict [("name", Val.str "a"), ("uses", Val.str "laser.isolation")],
         Val.dict [("name", Val.str "b"), ("uses", Val.str "loader")]])])
    Option.none
    ⟨Val.str "2",
      [⟨"a", "laser.isolation", [("name", Val.str "a"), ("uses", Val.str "laser.isolation")], []⟩,
       ⟨"b", "loader", [("name", Val.str "b"), ("uses", Val.str "loader")], []⟩],
      Option.none⟩ rfl).1

/-! ## Claim C10: non-string truthy versions are accepted -/

/-- Claim C10: the loader carries the version value verbatim; any present
truthy version passes the version check (a document with valid stages then
loads successfully, carrying that value, string or not); only an absent or
falsy version value is rejected by the version check. -/
theorem claim_c10_version :
    (∀ xs sp cfg, build_config (Val.dict xs) sp = Except.ok cfg →
      cfg.version = (alist_get xs "version").getD (Val.str "")) ∧
    (∀ xs sp v l, alist_get xs "version" = some v → truthy v = true →
      (alist_get xs "stages").getD Val.none = Val.list l → l ≠ [] →
      (∀ e ∈ l, ∃ st, coerce_stage e = Except.ok st) →
      ∃ cfg, build_config (Val.dict xs) sp = Except.ok cfg ∧ cfg.version = v) ∧
    (∀ xs sp, truthy ((alist_get xs "version").getD (Val.str "")) = false →
      build_config (Val.dict xs) sp = Except.error RunErr.pipelineErr) := by
  refine ⟨?_, ?_, ?_⟩
  · intro xs sp cfg hok
    simp only [build_config] at hok
    split at hok
    case isTrue hv =>
      split at hok
      case _ r rs heqs =>
        rcases hm : mapExcept coerce_stage (r :: rs) with e | ys
        · rw [hm] at hok
          exact Except.noConfusion hok
        · rw [hm] at hok
          injection hok with he
          subst he
          rfl
      case _ => exact Except.noConfusion hok
    case isFalse hv => exact Except.noConfusion hok
  · intro xs sp v l h1 h2 h3 h4 h5
    obtain ⟨ys, hm⟩ := mapExcept_ok_of_all h5
    have hv : (alist_get xs "version").getD (Val.str "") = v := by rw [h1]; rfl
    simp only [build_config]
    rw [hv, if_pos h2, h3]
    cases l with
    | nil => exact absurd rfl h4
    | cons r rs =>
        simp only [hm]
        exact ⟨⟨v, ys, sp⟩, rfl, rfl⟩
  · intro xs sp h
    simp [build_config, h]

/-- Witness for claim C10: a document whose version is the number 1 loads
successfully and carries that non-string value. -/
theorem claim_c10_witness :
    ∃ cfg, build_config (Val.dict [("version", Val.num 1),
      ("stages", Val.list [Val.dict [("name", Val.str "s"), ("uses", Val.str "loader.kicad")]])])
      Option.none = Except.ok cfg ∧ cfg.version = Val.num 1 :=
  claim_c10_version.2.1
    [("version", Val.num 1),
     ("stages", Val.list [Val.dict [("name", Val.str "s"), ("uses", Val.str "loader.kicad")]])]
    Option.none (Val.num 1)
    [Val.dict [("name", Val.str "s"), ("uses", Val.str "loader.kicad")]]
    rfl (by decide) rfl (by simp)
    (by
      intro e he
      simp at he
      subst he
      exact ⟨⟨"s", "loader.kicad",
        [("name", Val.str "s"), ("uses", Val.str "loader.kicad")], []⟩, rfl⟩)

/-! ## Claim C4: loader stage job path resolution -/

/-- Counterexample to claim C4 as stated, in three parts, refuting the
claimed layer order (with mapping, then nested with inside raw, then raw
directly) and the claimed PipelineError on a missing job.
First: a stage whose with mapping has no job, whose raw has job "A"
directly and job "B" inside a nested with sub-mapping, resolves to "A" —
the merged params consult raw directly before the nested with, the reverse
of the claimed order.
Second: a stage whose raw carries a null with entry and no job does not
raise PipelineError: the lookup params.get("with", ...).get(...) faults
with AttributeError on the null value first.
Third: a stage with job in its with mapping and folder only at the top
level of raw resolves to "f/j": folder and job are resolved independently,
so the two values come from different layers, not from one winning layer. -/
theorem claim_c4_counterexample :
    resolve_loader_job_path ⟨"a", "loader.kicad",
      [("job", Val.str "A"), ("with", Val.dict [("job", Val.str "B")])], []⟩ =
      Except.ok "A" ∧
    resolve_loader_job_path ⟨"a", "loader.kicad", [("with", Val.none)], []⟩ =
      Except.error RunErr.attrErr ∧
    resolve_loader_job_path ⟨"a", "loader.kicad",
      [("folder", Val.str "f")], [("job", Val.str "j")]⟩ = Except.ok "f/j" :=
  ⟨rfl, rfl, rfl⟩

/-- Claim C4 (amended): each of folder and job is resolved independently
through the layering: the stage's with mapping first (it shadows raw in the
merged params), then raw directly, and only when the merged lookup is falsy
the nested with sub-mapping of the merged params; that nested fallback
faults with AttributeError when the merged with entry is present, non-null
and not a mapping.  A falsy job value raises PipelineError.  A relative
path is joined under a truthy __pipeline_dir__ raw entry; an absolute one
is kept. -/
theorem claim_c4_amended :
    (∀ st k v, alist_get st.with_args k = some v → truthy v = true →
      loader_lookup st k = Except.ok v) ∧
    (∀ st k v, alist_get st.with_args k = Option.none →
      alist_get st.raw k = some v → truthy v = true →
      loader_lookup st k = Except.ok v) ∧
    (∀ st k ws, truthy ((loader_params_opt st k).getD Val.none) = false →
      loader_nested_with st = Val.dict ws →
      loader_lookup st k = Except.ok ((alist_get ws k).getD Val.none)) ∧
    (∀ st k w, truthy ((loader_params_opt st k).getD Val.none) = false →
      loader_nested_with st = w → w ≠ Val.none → w.isDict = false →
      loader_lookup st k = Except.error RunErr.attrErr) ∧
    (∀ st fv jv, loader_lookup st "folder" = Except.ok fv →
      loader_lookup st "job" = Except.ok jv → truthy jv = false →
      resolve_loader_job_path st = Except.error RunErr.pipelineErr) ∧
    (∀ st fv j d, loader_lookup st "folder" = Except.ok fv → truthy fv = false →
      loader_lookup st "job" = Except.ok (Val.str j) → j ≠ "" →
      is_absolute j = false →
      alist_get st.raw "__pipeline_dir__" = some (Val.str d) → d ≠ "" →
      resolve_loader_job_path st = Except.ok (path_join d j)) ∧
    (∀ st fv j, loader_lookup st "folder" = Except.ok fv → truthy fv = false →
      loader_lookup st "job" = Except.ok (Val.str j) → j ≠ "" →
      is_absolute j = true →
      resolve_loader_job_path st = Except.ok j) := by
  refine ⟨?_, ?_, ?_, ?_, ?_, ?_, ?_⟩
  · intro st k v h1 h2
    simp [loader_lookup, loader_params_opt, h1, h2]
  · intro st k v h1 h2 h3
    simp [loader_lookup, loader_params_opt, h1, h2, h3]
  · intro st k ws h1 h2
    simp [loader_lookup, h1, h2]
  · intro st k w h1 h2 h3 h4
    subst h2
    simp only [loader_lookup, h1]
    cases hw : loader_nested_with st with
    | none => exact absurd hw h3
    | dict ws => rw [hw] at h4; simp [Val.isDict] at h4
    | bool b => simp [hw]
    | num q => simp [hw]
    | str s => simp [hw]
    | list l => simp [hw]
  · intro st fv jv h1 h2 h3
    simp [resolve_loader_job_path, h1, h2, h3]
  · intro st fv j d h1 h2 h3 h4 h5 h6 h7
    have hj : truthy (Val.str j) = true := by simp [truthy, h4]
    have hd : truthy (Val.str d) = true := by simp [truthy, h7]
    simp [resolve_loader_job_path, h1, h2, h3, hj, path_of_val, h5, h6,
      Option.getD, hd]
  · intro st fv j h1 h2 h3 h4 h5
    have hj : truthy (Val.str j) = true := by simp [truthy, h4]
    simp [resolve_loader_job_path, h1, h2, h3, hj, path_of_val, h5]

/-- Witness for claim C4: the with-mapping layer wins for a concrete stage
whose with mapping carries a truthy job. -/
theorem claim_c4_witness :
    loader_lookup ⟨"a", "loader.kicad", [("job", Val.str "raw.job")],
      [("job", Val.str "with.job")]⟩ "job" = Except.ok (Val.str "with.job") :=
  claim_c4_amended.1
    ⟨"a", "loader.kicad", [("job", Val.str "raw.job")], [("job", Val.str "with.job")]⟩
    "job" (Val.str "with.job") rfl rfl

/-! ## Context lemmas and stage-run shape lemmas -/

theorem ctxGet_set_self (ctx : Context) (k : String) (v : CtxVal) :
    ctxGet (ctxSet ctx k v) k = some v :=
  alist_get_set_self ctx k v

theorem ctxGet_set_ne (ctx : Context) (k k1 : String) (v : CtxVal) (h : k1 ≠ k) :
    ctxGet (ctxSet ctx k v) k1 = ctxGet ctx k1 :=
  alist_get_set_ne ctx k k1 v h

theorem runStage_ctx_shape {kind : StageKind} {st : Stage} {prev : Option CtxVal}
    {ctx : Context} {fs : Fs} {out : CtxVal} {ctx1 : Context}
    (h : runStage kind st prev ctx fs = Except.ok (out, ctx1)) :
    ctx1 = ctxSet ctx (stageKey kind) out := by
  cases kind
  case loaderKicad =>
    simp only [runStage] at h
    split at h
    next => exact Except.noConfusion h
    next p hp =>
      split at h
      next => exact Except.noConfusion h
      next j hj =>
        injection h with he
        injection he with e1 e2
        subst e1
        exact e2.symm
  all_goals simp only [runStage] at h
  all_goals (injection h with he; injection he with e1 e2; subst e1; exact e2.symm)

theorem runStage_loader_shape {st : Stage} {prev : Option CtxVal} {ctx : Context}
    {fs : Fs} {out : CtxVal} {ctx1 : Context}
    (h : runStage StageKind.loaderKicad st prev ctx fs = Except.ok (out, ctx1)) :
    ∃ j, out = CtxVal.ofJob j ∧ ctx1 = ctxSet ctx "job" out := by
  simp only [runStage] at h
  split at h
  next => exact Except.noConfusion h
  next p hp =>
    split at h
    next => exact Except.noConfusion h
    next j hj =>
      injection h with he
      injection he with e1 e2
      subst e1
      exact ⟨j, rfl, e2.symm⟩

theorem runStage_laser_isolation_eq (st : Stage) (prev : Option CtxVal)
    (ctx : Context) (fs : Fs) :
    runStage StageKind.laserIsolation st prev ctx fs =
      Except.ok (laser_isolation_result ctx,
        ctxSet ctx "laser_isolation" (laser_isolation_result ctx)) := rfl

theorem runStage_output_laser_gcode_eq (st : Stage) (prev : Option CtxVal)
    (ctx : Context) (fs : Fs) :
    runStage StageKind.outputLaserGcode st prev ctx fs =
      Except.ok (CtxVal.ofVal (Val.str (gcode_text "laser" st)),
        ctxSet ctx "laser_gcode" (CtxVal.ofVal (Val.str (gcode_text "laser" st)))) := rfl

theorem goStages_preserve (stages : List Stage) (prev : Option CtxVal)
    (ctx : Context) (fs : Fs) (pd : Val) (k : String) (hlast : k ≠ "last")
    (hkeys : ∀ kind, k ≠ stageKey kind) :
    ctxGet (goStages stages prev ctx fs pd).1 k = ctxGet ctx k := by
  induction stages generalizing prev ctx with
  | nil => rfl
  | cons s rest ih =>
      simp only [goStages]
      rcases hc : createStageImpl (stage_with_dir s pd) with e | kind
      · simp only [hc]
      · rcases hr : runStage kind (stage_with_dir s pd) prev ctx fs with e | pair
        · simp only [hc, hr]
        · obtain ⟨out, ctx2⟩ := pair
          simp only [hc, hr]
          have hshape := runStage_ctx_shape hr
          subst hshape
          rw [ih]
          rw [ctxGet_set_ne _ _ _ _ hlast, ctxGet_set_ne _ _ _ _ (hkeys kind)]

/-! ## Claim C5: stage-type resolution and abort semantics -/

/-- Claim C5: the registry holds exactly the eight documented keys;
create_stage_impl raises PipelineError exactly when the uses string is not
one of them (an exact dictionary lookup, no partial matching); and when the
failing stage is reached during execution, after any prefix of stages that
ran successfully, the run stops with that error, no later stage runs, and
the context accumulated by the prefix is returned unchanged. -/
theorem claim_c5_registry :
    (registryKeys = ["loader.kicad", "laser.isolation", "laser.outline",
      "laser.raster", "milling.isolation", "milling.board_cutout",
      "output.laser_gcode", "output.cnc_gcode"]) ∧
    (∀ st, createStageImpl st = Except.error RunErr.pipelineErr ↔
      st.uses ∉ registryKeys) ∧
    (∀ pre bad post prev ctx fs pd ctx1,
      bad.uses ∉ registryKeys →
      goStages pre prev ctx fs pd = (ctx1, Option.none) →
      goStages (pre ++ bad :: post) prev ctx fs pd =
        (ctx1, some RunErr.pipelineErr)) := by
  refine ⟨rfl, ?_, ?_⟩
  · intro st
    constructor
    · intro h
      rcases hm : alist_get STAGE_CLASS_REGISTRY st.uses with _ | kind
      · exact (alist_get_eq_none_iff _ _).mp hm
      · have hc : createStageImpl st = Except.ok kind := by
          simp [createStageImpl, hm]
        rw [hc] at h
        exact Except.noConfusion h
    · intro h
      have hm : alist_get STAGE_CLASS_REGISTRY st.uses = Option.none :=
        (alist_get_eq_none_iff _ _).mpr h
      simp [createStageImpl, hm]
  · intro pre bad post prev ctx fs pd ctx1 hbad
    induction pre generalizing prev ctx ctx1 with
    | nil =>
        intro hpre
        have hc : ctx = ctx1 := congrArg Prod.fst hpre
        subst hc
        have hm : alist_get STAGE_CLASS_REGISTRY (stage_with_dir bad pd).uses =
            Option.none := by
          have he : (stage_with_dir bad pd).uses = bad.uses := rfl
          rw [he]
          exact (alist_get_eq_none_iff _ _).mpr hbad
        simp [goStages, createStageImpl, hm]
    | cons s rest ih =>
        intro hpre
        rcases hc : createStageImpl (stage_with_dir s pd) with e | kind
        · simp [goStages, hc] at hpre
        · rcases hr : runStage kind (stage_with_dir s pd) prev ctx fs with e | pair
          · simp [goStages, hc, hr] at hpre
          · obtain ⟨out, ctx2⟩ := pair
            simp only [goStages, hc, hr] at hpre
            simp only [List.cons_append, goStages, hc, hr]
            exact ih _ _ _ hpre

/-- Witness for claim C5: a one-stage pipeline whose uses is bogus.stage
stops immediately with PipelineError and the starting context intact. -/
theorem claim_c5_witness :
    goStages [⟨"x", "bogus.stage", [], []⟩]
      Option.none [("pipeline_version", CtxVal.ofVal (Val.str "1"))]
      (fun _ => Option.none) Val.none =
      ([("pipeline_version", CtxVal.ofVal (Val.str "1"))],
        some RunErr.pipelineErr) := by
  have h := claim_c5_registry.2.2 [] ⟨"x", "bogus.stage", [], []⟩ []
    Option.none [("pipeline_version", CtxVal.ofVal (Val.str "1"))]
    (fun _ => Option.none) Val.none
    [("pipeline_version", CtxVal.ofVal (Val.str "1"))]
    (by decide) rfl
  exact h

/-! ## Claim C7: execution context population -/

/-- Claim C7: the context starts from pipeline_version with a
no-previous-output marker for the first stage; after every successful stage
the engine passes its output to the next stage and stores it under last;
pipeline_version is present in the final context of every run; and a
successful run of the 3-stage pipeline loader.kicad, laser.isolation,
output.laser_gcode ends with context keys job, laser_isolation and
laser_gcode populated and last equal to the final stage's returned G-code
string. -/
theorem claim_c7_execution :
    (∀ cfg fs, executePipeline cfg fs =
      goStages cfg.stages Option.none
        [("pipeline_version", CtxVal.ofVal cfg.version)] fs (pipelineDirVal cfg)) ∧
    (∀ s rest prev ctx fs pd kind out ctx1,
      createStageImpl (stage_with_dir s pd) = Except.ok kind →
      runStage kind (stage_with_dir s pd) prev ctx fs = Except.ok (out, ctx1) →
      goStages (s :: rest) prev ctx fs pd =
        goStages rest (some out) (ctxSet ctx1 "last" out) fs pd) ∧
    (∀ cfg fs, ctxGet (executePipeline cfg fs).1 "pipeline_version" =
      some (CtxVal.ofVal cfg.version)) ∧
    (∀ cfg fs ctxF s1 s2 s3, cfg.stages = [s1, s2, s3] →
      s1.uses = "loader.kicad" → s2.uses = "laser.isolation" →
      s3.uses = "output.laser_gcode" →
      executePipeline cfg fs = (ctxF, Option.none) →
      (∃ j, ctxGet ctxF "job" = some (CtxVal.ofJob j)) ∧
      (∃ r, ctxGet ctxF "laser_isolation" = some r) ∧
      (∃ g, ctxGet ctxF "laser_gcode" = some (CtxVal.ofVal (Val.str g)) ∧
            ctxGet ctxF "last" = some (CtxVal.ofVal (Val.str g)))) := by
  refine ⟨fun cfg fs => rfl, ?_, ?_, ?_⟩
  · intro s rest prev ctx fs pd kind out ctx1 h1 h2
    simp [goStages, h1, h2]
  · intro cfg fs
    have hp := goStages_preserve cfg.stages Option.none
      [("pipeline_version", CtxVal.ofVal cfg.version)] fs (pipelineDirVal cfg)
      "pipeline_version" (by decide) (by intro kind; cases kind <;> decide)
    exact hp.trans (by simp [ctxGet, alist_get])
  · intro cfg fs ctxF s1 s2 s3 hs hu1 hu2 hu3 hexec
    have h0 : executePipeline cfg fs =
        goStages cfg.stages Option.none
          [("pipeline_version", CtxVal.ofVal cfg.version)] fs (pipelineDirVal cfg) := rfl
    rw [h0, hs] at hexec
    have hc1 : createStageImpl (stage_with_dir s1 (pipelineDirVal cfg)) =
        Except.ok StageKind.loaderKicad := by
      simp [createStageImpl, stage_with_dir, hu1, STAGE_CLASS_REGISTRY, alist_get]
    simp only [goStages, hc1] at hexec
    rcases hr1 : runStage StageKind.loaderKicad (stage_with_dir s1 (pipelineDirVal cfg))
        Option.none [("pipeline_version", CtxVal.ofVal cfg.version)] fs with e | pair
    · rw [hr1] at hexec
      exact absurd (congrArg Prod.snd hexec) (by simp)
    · obtain ⟨out1, ctxA⟩ := pair
      simp only [hr1] at hexec
      obtain ⟨j1, hout1, hctxA⟩ := runStage_loader_shape hr1
      have hc2 : createStageImpl (stage_with_dir s2 (pipelineDirVal cfg)) =
          Except.ok StageKind.laserIsolation := by
        simp [createStageImpl, stage_with_dir, hu2, STAGE_CLASS_REGISTRY, alist_get]
      simp only [goStages, hc2, runStage_laser_isolation_eq] at hexec
      have hc3 : createStageImpl (stage_with_dir s3 (pipelineDirVal cfg)) =
          Except.ok StageKind.outputLaserGcode := by
        simp [createStageImpl, stage_with_dir, hu3, STAGE_CLASS_REGISTRY, alist_get]
      simp only [goStages, hc3, runStage_output_laser_gcode_eq] at hexec
      subst hout1
      subst hctxA
      rw [Prod.mk.injEq] at hexec
      obtain ⟨hF, _⟩ := hexec
      subst hF
      refine ⟨⟨j1, ?_⟩,
        ⟨laser_isolation_result
          (ctxSet (ctxSet [("pipeline_version", CtxVal.ofVal cfg.version)]
            "job" (CtxVal.ofJob j1)) "last" (CtxVal.ofJob j1)), ?_⟩,
        ⟨gcode_text "laser" (stage_with_dir s3 (pipelineDirVal cfg)), ?_, ?_⟩⟩
      · rw [ctxGet_set_ne _ "last" "job" _ (by decide),
          ctxGet_set_ne _ "laser_gcode" "job" _ (by decide),
          ctxGet_set_ne _ "last" "job" _ (by decide),
          ctxGet_set_ne _ "laser_isolation" "job" _ (by decide),
          ctxGet_set_ne _ "last" "job" _ (by decide),
          ctxGet_set_self]
      · rw [ctxGet_set_ne _ "last" "laser_isolation" _ (by decide),
          ctxGet_set_ne _ "laser_gcode" "laser_isolation" _ (by decide),
          ctxGet_set_ne _ "last" "laser_isolation" _ (by decide),
          ctxGet_set_self]
      · rw [ctxGet_set_ne _ "last" "laser_gcode" _ (by decide),
          ctxGet_set_self]
      · rw [ctxGet_set_self]

/-- Witness for claim C7: a concrete 3-stage pipeline over a one-file
filesystem; the loader resolves an absolute job path directly. -/
theorem claim_c7_witness :
    ∃ j, ctxGet (executePipeline
      ⟨Val.str "1",
       [⟨"s1", "loader.kicad", [], [("job", Val.str "/j.gbrjob")]⟩,
        ⟨"s2", "laser.isolation", [], []⟩,
        ⟨"s3", "output.laser_gcode", [], []⟩], Option.none⟩
      (fun p => if p = "/j.gbrjob" then some (Val.dict []) else Option.none)).1
      "job" = some (CtxVal.ofJob j) :=
  (claim_c7_execution.2.2.2
    ⟨Val.str "1",
     [⟨"s1", "loader.kicad", [], [("job", Val.str "/j.gbrjob")]⟩,
      ⟨"s2", "laser.isolation", [], []⟩,
      ⟨"s3", "output.laser_gcode", [], []⟩], Option.none⟩
    (fun p => if p = "/j.gbrjob" then some (Val.dict []) else Option.none)
    (executePipeline
      ⟨Val.str "1",
       [⟨"s1", "loader.kicad", [], [("job", Val.str "/j.gbrjob")]⟩,
        ⟨"s2", "laser.isolation", [], []⟩,
        ⟨"s3", "output.laser_gcode", [], []⟩], Option.none⟩
      (fun p => if p = "/j.gbrjob" then some (Val.dict []) else Option.none)).1
    ⟨"s1", "loader.kicad", [], [("job", Val.str "/j.gbrjob")]⟩
    ⟨"s2", "laser.isolation", [], []⟩
    ⟨"s3", "output.laser_gcode", [], []⟩
    rfl rfl rfl rfl (by rfl)).1

end PcbMaker
